import Mathlib

/-!
Verification of the message-routing core of a multi-agent RabbitMQ
orchestration system.

The definitions below are shallow embeddings of the JavaScript routing
code (rabbitmq-client.js / orchestrator.js as recorded in the repository's
architecture documents and skill files):

* agent-identity resolution (`resolveAgentId`),
* per-agent exclusive reply-queue naming (`setupBrainstormResultQueueName`,
  `broadcastReplyTo`),
* result routing (`publishResultDest`),
* the dual-publish pattern of `handleBrainstorm`,
* the response collector (`collectedResponses`, `collectResolveTimeMs`),
* the partial-result collector (`collectWithTimeout`),
* the retry handler and the broker's requeue semantics
  (`handleFailedDelivery`, `deliveryOutcome`),
* a model of the broker's priority-queue delivery (`drain`).

JavaScript `||` on strings treats only the empty string (and an absent
value) as falsy; `jsOrString` captures exactly that.
-/

/-- JavaScript `a || b` where `a` is an optional string: an absent value
or the empty string falls through to `b`. -/
def jsOrString (a : Option String) (b : String) : String :=
  match a with
  | none => b
  | some s => if s = "" then b else s

/-- `this.agentId = config.agentId || process.env.AGENT_ID || agent-${uuidv4()}`
(rabbitmq-client.js line 25, after the 100K-GEM synchronization fix).
The freshly generated identifier is modelled by passing the uuid drawn by
this run as an explicit argument. -/
def resolveAgentId (configAgentId envAgentId : Option String)
    (freshUuid : String) : String :=
  jsOrString configAgentId (jsOrString envAgentId ("agent-" ++ freshUuid))

/-- `setupBrainstormResultQueue`: the queue it asserts is named
`brainstorm.results.${this.agentId}` (rabbitmq-client.js lines 156-168). -/
def setupBrainstormResultQueueName (agentId : String) : String :=
  "brainstorm.results." ++ agentId

/-- `broadcastBrainstorm` embeds `replyTo: brainstorm.results.${this.agentId}`
in every broadcast message (rabbitmq-client.js lines 239-262). -/
def broadcastReplyTo (agentId : String) : String :=
  "brainstorm.results." ++ agentId

/-- `publishResult(result, targetAgentId = null, queueName = 'agent.results')`
computes its destination queue with the JS ternary
`targetAgentId ? brainstorm.results.${targetAgentId} : queueName`
(rabbitmq-client.js lines 298-324). The ternary tests truthiness, so a
null/omitted target and an empty-string target both fall to `queueName`. -/
def publishResultDest (targetAgentId : Option String) (queueName : String) :
    String :=
  match targetAgentId with
  | some t => if t = "" then queueName else "brainstorm.results." ++ t
  | none => queueName

/-- C1. In the RabbitMQClient constructor, the resolved agent identifier is
the explicitly supplied config value when present and non-empty, otherwise
the environment value AGENT_ID when present and non-empty, otherwise the
freshly generated `agent-<uuid>`; the resolution is a total function. -/
theorem resolveAgentId_priority
    (configAgentId envAgentId : Option String) (freshUuid : String) :
    (∀ c, configAgentId = some c → c ≠ "" →
      resolveAgentId configAgentId envAgentId freshUuid = c)
    ∧ ((configAgentId = none ∨ configAgentId = some "") →
      ∀ e, envAgentId = some e → e ≠ "" →
      resolveAgentId configAgentId envAgentId freshUuid = e)
    ∧ ((configAgentId = none ∨ configAgentId = some "") →
      (envAgentId = none ∨ envAgentId = some "") →
      resolveAgentId configAgentId envAgentId freshUuid =
        "agent-" ++ freshUuid) := by
  refine ⟨?_, ?_, ?_⟩
  · intro c hc hne
    subst hc
    simp [resolveAgentId, jsOrString, hne]
  · rintro (hc | hc) e he hne <;> subst hc <;> subst he <;>
      simp [resolveAgentId, jsOrString, hne]
  · rintro (hc | hc) (he | he) <;> subst hc <;> subst he <;>
      simp [resolveAgentId, jsOrString]

/-- Witness for C1: each branch of the priority at a concrete input. -/
theorem resolveAgentId_priority_witness :
    resolveAgentId (some "orchestrator-7") (some "env-id") "u0" =
      "orchestrator-7"
    ∧ resolveAgentId (some "") (some "env-id") "u0" = "env-id"
    ∧ resolveAgentId none none "u0" = "agent-u0" :=
  ⟨(resolveAgentId_priority (some "orchestrator-7") (some "env-id") "u0").1
      "orchestrator-7" rfl (by decide),
   (resolveAgentId_priority (some "") (some "env-id") "u0").2.1
      (Or.inr rfl) "env-id" rfl (by decide),
   (resolveAgentId_priority none none "u0").2.2 (Or.inl rfl) (Or.inl rfl)⟩

/-- Identity resolution never produces the empty string: a non-empty
config or env value is returned as is, and the fallback is
`agent-<uuid>`. -/
theorem resolveAgentId_ne_empty (configAgentId envAgentId : Option String)
    (freshUuid : String) :
    resolveAgentId configAgentId envAgentId freshUuid ≠ "" := by
  have hgen : "agent-" ++ freshUuid ≠ "" := by
    intro h
    have h2 : ("agent-" ++ freshUuid).data = ([] : List Char) := by rw [h]
    rw [String.data_append] at h2
    rcases List.append_eq_nil.mp h2 with ⟨h3, -⟩
    exact absurd h3 (by decide)
  have henv : jsOrString envAgentId ("agent-" ++ freshUuid) ≠ "" := by
    cases envAgentId with
    | none => exact hgen
    | some e =>
      by_cases he : e = ""
      · simp only [jsOrString]
        rw [if_pos he]
        exact hgen
      · simp only [jsOrString]
        rw [if_neg he]
        exact he
  unfold resolveAgentId
  cases configAgentId with
  | none => exact henv
  | some c =>
    by_cases hc : c = ""
    · simp only [jsOrString]
      rw [if_pos hc]
      exact henv
    · simp only [jsOrString]
      rw [if_neg hc]
      exact hc

/-- C2 counterexample: the queue the code declares for agent id `a7` is
`brainstorm.results.a7`, not `reply.a7` as the claim states. -/
theorem replyQueueName_counterexample :
    setupBrainstormResultQueueName "a7" ≠ "reply." ++ "a7" := by decide

/-- C2 (amended). The per-agent exclusive reply queue is named
`brainstorm.results.<agentId>`, and this exact name is computed by the
component that declares the queue, by the broadcaster advertising the
reply target, and — for the non-empty ids that identity resolution
produces (`resolveAgentId_ne_empty`) — by the targeted branch of
`publishResult`. -/
theorem brainstormResultQueue_naming_consistent (a : String)
    (anyDefault : String) :
    setupBrainstormResultQueueName a = "brainstorm.results." ++ a
    ∧ broadcastReplyTo a = setupBrainstormResultQueueName a
    ∧ (a ≠ "" → publishResultDest (some a) anyDefault =
        setupBrainstormResultQueueName a) := by
  refine ⟨rfl, rfl, ?_⟩
  intro ha
  simp [publishResultDest, setupBrainstormResultQueueName, ha]

/-- Witness for C2 (amended): a concrete non-empty agent id. -/
theorem brainstormResultQueue_naming_consistent_witness :
    publishResultDest (some "agent-w1") "agent.results" =
      setupBrainstormResultQueueName "agent-w1" :=
  (brainstormResultQueue_naming_consistent "agent-w1" "agent.results").2.2
    (by decide)

/-- C3 counterexample: resolving the identity twice with the same explicit
value `""` (and no environment value) derives two different exclusive-queue
names, because each run falls through to a fresh random uuid. -/
theorem exclusiveQueueName_nondeterministic_on_empty_explicit :
    setupBrainstormResultQueueName
        (resolveAgentId (some "") none "1111-aaaa")
      ≠ setupBrainstormResultQueueName
        (resolveAgentId (some "") none "2222-bbbb") := by decide

/-- C3 (amended). For a non-empty explicit value, resolving the identity
twice (under any environment values and any fresh uuids) derives the same
exclusive-queue name both times; and for every id the name computed by the
declaring component equals the reply target computed by the broadcaster. -/
theorem exclusiveQueueName_deterministic (x : String) (hx : x ≠ "")
    (env1 env2 : Option String) (u1 u2 : String) :
    setupBrainstormResultQueueName (resolveAgentId (some x) env1 u1) =
      setupBrainstormResultQueueName (resolveAgentId (some x) env2 u2)
    ∧ ∀ a : String,
        setupBrainstormResultQueueName a = broadcastReplyTo a := by
  constructor
  · simp [resolveAgentId, jsOrString, hx]
  · intro a
    rfl

/-- Witness for C3 (amended): a concrete non-empty explicit value. -/
theorem exclusiveQueueName_deterministic_witness :
    setupBrainstormResultQueueName
        (resolveAgentId (some "agent-42") none "u1") =
      setupBrainstormResultQueueName
        (resolveAgentId (some "agent-42") (some "other") "u2") :=
  (exclusiveQueueName_deterministic "agent-42" (by decide)
    none (some "other") "u1" "u2").1

/-- A brainstorm broadcast message as workers receive it: the initiator's
agent id travels in `from`, the session id inside the nested `message`. -/
structure BrainstormMsg where
  sessionId : String
  fromAgent : String
  question : String
  deriving DecidableEq

/-- A brainstorm response as built inside `handleBrainstorm`. -/
structure BrainstormResponse where
  sessionId : String
  fromAgent : String
  suggestion : String
  timestamp : Nat
  msgType : String
  deriving DecidableEq

/-- The response object `handleBrainstorm` constructs: session id copied
from the broadcast, `from` set to this agent, type `brainstorm_response`. -/
def mkBrainstormResponse (selfId : String) (msg : BrainstormMsg)
    (suggestion : String) (ts : Nat) : BrainstormResponse :=
  { sessionId := msg.sessionId
    fromAgent := selfId
    suggestion := suggestion
    timestamp := ts
    msgType := "brainstorm_response" }

/-- One `publishResult` call: the pair (destination queue, message). -/
def publishResultCall (result : BrainstormResponse)
    (targetAgentId : Option String) (queueName : String) :
    String × BrainstormResponse :=
  (publishResultDest targetAgentId queueName, result)

/-- The publishes `handleBrainstorm` performs (orchestrator.js): first
`publishResult(response, msg.from)` — targeted — then `publishResult(response)`
— the shared default queue `agent.results`. -/
def handleBrainstormPublishes (selfId : String) (msg : BrainstormMsg)
    (suggestion : String) (ts : Nat) : List (String × BrainstormResponse) :=
  let response := mkBrainstormResponse selfId msg suggestion ts
  [publishResultCall response (some msg.fromAgent) "agent.results",
   publishResultCall response none "agent.results"]

/-- C4. `handleBrainstorm` publishes the response exactly twice: once to the
initiator's exclusive queue and once to the shared results stream, with the
same response object both times; hence any response delivered on the
initiator's exclusive queue is also published to the shared stream. The
hypothesis restricts to the claim's domain: the initiator's id in
`msg.from` is a resolved identity, hence non-empty
(`resolveAgentId_ne_empty`). -/
theorem handleBrainstorm_dual_publish (selfId suggestion : String)
    (ts : Nat) (msg : BrainstormMsg) (hfrom : msg.fromAgent ≠ "") :
    handleBrainstormPublishes selfId msg suggestion ts =
      [(setupBrainstormResultQueueName msg.fromAgent,
        mkBrainstormResponse selfId msg suggestion ts),
       ("agent.results", mkBrainstormResponse selfId msg suggestion ts)]
    ∧ (handleBrainstormPublishes selfId msg suggestion ts).length = 2
    ∧ ∀ r : BrainstormResponse,
        (setupBrainstormResultQueueName msg.fromAgent, r) ∈
          handleBrainstormPublishes selfId msg suggestion ts →
        ("agent.results", r) ∈
          handleBrainstormPublishes selfId msg suggestion ts := by
  refine ⟨?_, rfl, ?_⟩
  · simp [handleBrainstormPublishes, publishResultCall, publishResultDest,
      setupBrainstormResultQueueName, hfrom]
  · intro r hr
    simp only [handleBrainstormPublishes, publishResultCall,
      publishResultDest, setupBrainstormResultQueueName, hfrom, if_neg,
      List.mem_cons, List.not_mem_nil, or_false, Prod.mk.injEq] at hr ⊢
    rcases hr with ⟨-, hr⟩ | ⟨-, hr⟩
    · exact Or.inr ⟨trivial, hr⟩
    · exact Or.inr ⟨trivial, hr⟩

/-- Witness for C4: a concrete broadcast message with a non-empty
initiator id. -/
theorem handleBrainstorm_dual_publish_witness :
    ("agent.results",
      mkBrainstormResponse "w1" ⟨"s1", "leader", "q?"⟩ "idea" 5) ∈
      handleBrainstormPublishes "w1" ⟨"s1", "leader", "q?"⟩ "idea" 5 :=
  (handleBrainstorm_dual_publish "w1" "idea" 5 ⟨"s1", "leader", "q?"⟩
    (by decide)).2.2
    (mkBrainstormResponse "w1" ⟨"s1", "leader", "q?"⟩ "idea" 5)
    (by decide)

/-- C10 counterexample: the empty string is non-null but falsy, so
`publishResult(result, "", "agent.results")` publishes to `agent.results`,
not to a `brainstorm.results.` destination as the claim's
"non-null implies targeted" reading requires. -/
theorem publishResult_empty_target_counterexample :
    (publishResultCall ⟨"s1", "a", "x", 1, "brainstorm_response"⟩
      (some "") "agent.results").1 = "agent.results"
    ∧ (publishResultCall ⟨"s1", "a", "x", 1, "brainstorm_response"⟩
      (some "") "agent.results").1 ≠ "brainstorm.results." := by decide

/-- C10 (amended). `publishResult` routes to
`brainstorm.results.<targetAgentId>` when the target is non-null and
non-empty (truthy), to `queueName` (default `agent.results`) when the
target is null, omitted, or the empty string, and to no other
destination. -/
theorem publishResult_routing (r : BrainstormResponse) (t q : String) :
    (t ≠ "" → publishResultCall r (some t) q =
      ("brainstorm.results." ++ t, r))
    ∧ publishResultCall r (some "") q = (q, r)
    ∧ publishResultCall r none q = (q, r)
    ∧ publishResultCall r none "agent.results" = ("agent.results", r)
    ∧ ∀ tgt : Option String,
        (publishResultCall r tgt q).1 = q ∨
        ∃ a, tgt = some a ∧ a ≠ "" ∧
          (publishResultCall r tgt q).1 = "brainstorm.results." ++ a := by
  refine ⟨?_, rfl, rfl, rfl, ?_⟩
  · intro ht
    simp [publishResultCall, publishResultDest, ht]
  · intro tgt
    cases tgt with
    | none => exact Or.inl rfl
    | some a =>
      by_cases ha : a = ""
      · subst ha
        exact Or.inl rfl
      · refine Or.inr ⟨a, rfl, ha, ?_⟩
        simp [publishResultCall, publishResultDest, ha]

/-- Witness for C10 (amended): a concrete non-empty target. -/
theorem publishResult_routing_witness :
    publishResultCall ⟨"s1", "a", "x", 1, "brainstorm_response"⟩
      (some "w7") "agent.results" =
      ("brainstorm.results.w7",
        ⟨"s1", "a", "x", 1, "brainstorm_response"⟩) :=
  (publishResult_routing ⟨"s1", "a", "x", 1, "brainstorm_response"⟩
    "w7" "agent.results").1 (by decide)

/-- The collector of `collectResponses`: every result arriving on the shared
stream is appended iff its `sessionId` strictly equals the session being
collected (collaboration skill, sessionId filter). -/
def collectedResponses (sessionId : String)
    (stream : List BrainstormResponse) : List BrainstormResponse :=
  stream.filter (fun r => r.sessionId == sessionId)

/-- C8. A collector waiting on session `s1` accumulates only responses
tagged `s1`; a response tagged with a different session `s2` is never
delivered into the collected set, whatever the shared stream contains. -/
theorem session_isolation (s1 s2 : String) (hne : s2 ≠ s1)
    (stream : List BrainstormResponse) :
    (∀ r ∈ collectedResponses s1 stream, r.sessionId = s1)
    ∧ ∀ r ∈ collectedResponses s1 stream, r.sessionId ≠ s2 := by
  have hmem : ∀ r ∈ collectedResponses s1 stream, r.sessionId = s1 := by
    intro r hr
    have := List.of_mem_filter hr
    simpa using this
  refine ⟨hmem, ?_⟩
  intro r hr
  rw [hmem r hr]
  exact fun h => hne h.symm

/-- Witness for C8: sessions `s1` ≠ `s2` on a mixed concrete stream; the
response collected for `s1` is not tagged `s2`. -/
theorem session_isolation_witness :
    (⟨"s1", "a", "x", 1, "brainstorm_response"⟩ :
      BrainstormResponse).sessionId ≠ "s2" :=
  (session_isolation "s1" "s2" (by decide)
    [⟨"s1", "a", "x", 1, "brainstorm_response"⟩,
     ⟨"s2", "b", "y", 2, "brainstorm_response"⟩]).2
    ⟨"s1", "a", "x", 1, "brainstorm_response"⟩ (by decide)

/-- Number of matching responses the collector has accumulated by elapsed
time `t` (ms), given the arrival times of the matching responses. -/
def respCountAt (arrivals : List Nat) (t : Nat) : Nat :=
  (arrivals.filter (fun a => a ≤ t)).length

/-- The early-return test of `collectResponses` exactly as written:
`responses.length >= minResponses && responses.length >= maxResponses`,
where the default `maxResponses` is `Infinity` (modelled as `none`, which
no finite length ever reaches). -/
def earlyReturnCond (len minResponses : Nat) (maxResponses : Option Nat) :
    Bool :=
  decide (minResponses ≤ len) &&
    (match maxResponses with
     | none => false
     | some m => decide (m ≤ len))

/-- The timeout test of `collectResponses`: `elapsed >= timeout`. -/
def timeoutReached (elapsed timeout : Nat) : Bool :=
  decide (timeout ≤ elapsed)

/-- The condition checked on interval tick `k` (the interval fires every
1000 ms, so tick `k` runs at elapsed time `1000 * k`). -/
def collectTickCond (arrivals : List Nat) (timeout minResponses : Nat)
    (maxResponses : Option Nat) (k : Nat) : Bool :=
  timeoutReached (1000 * k) timeout ||
    earlyReturnCond (respCountAt arrivals (1000 * k)) minResponses
      maxResponses

/-- First tick index at or after `k` on which `cond` holds, searching at
most `fuel` ticks. -/
def firstTickFrom (cond : Nat → Bool) : Nat → Nat → Nat
  | 0, k => k
  | fuel + 1, k => if cond k then k else firstTickFrom cond fuel (k + 1)

/-- Elapsed time (ms) at which `collectResponses` resolves: the first
interval tick on which the timeout test or the early-return test fires.
The fuel `timeout / 1000 + 1` covers every tick up to the timeout. -/
def collectResolveTimeMs (arrivals : List Nat)
    (timeout minResponses : Nat) (maxResponses : Option Nat) : Nat :=
  1000 * firstTickFrom
    (collectTickCond arrivals timeout minResponses maxResponses)
    (timeout / 1000 + 1) 1

/-- C5 evidence. With the default `maxResponses = Infinity`, a single
matching response arriving at 500 ms with `minResponses = 1` and a
60000 ms timeout: the response count already meets `minResponses` at the
first tick, yet the early-return test (an `&&` against `Infinity`) is
false, so `collectResponses` resolves only at the full 60000 ms timeout
instead of returning early. -/
theorem collect_early_return_never_fires :
    respCountAt [500] 1000 = 1
    ∧ (1 ≤ respCountAt [500] 1000) = True
    ∧ earlyReturnCond (respCountAt [500] 1000) 1 none = false
    ∧ collectResolveTimeMs [500] 60000 1 none = 60000 := by decide

/-- Outcome of `collectWithTimeout`: either the complete set, or the
timeout object `{complete: false, received, expected, missing, results}`. -/
inductive CollectOutcome (α : Type) where
  | completed (results : List α)
  | incomplete (received expected : Nat) (missing : Int) (results : List α)
  deriving DecidableEq

/-- `collectWithTimeout(taskCount, timeout)` (rabbitmq-ops skill): each
arriving result is pushed; when the count hits exactly `taskCount` it
resolves `{complete: true, results}`; otherwise the timeout fires with the
partial object. `arrived` lists the results that would arrive before the
timeout, in order; the count hits `taskCount` iff `1 ≤ taskCount` and at
least `taskCount` results arrive. -/
def collectWithTimeout (α : Type) (arrived : List α) (taskCount : Nat) :
    CollectOutcome α :=
  if 1 ≤ taskCount ∧ taskCount ≤ arrived.length then
    CollectOutcome.completed (arrived.take taskCount)
  else
    CollectOutcome.incomplete arrived.length taskCount
      ((taskCount : Int) - (arrived.length : Int)) arrived

/-- The value `collectResponses` resolves: the bare `responses` array as
of the resolve tick — the matching responses that arrived by then.
Nothing wraps the array: no flag, no counts. `stream` is the
shared-stream traffic, each response stamped with its arrival time
(ms). -/
def collectResponsesValue (stream : List (Nat × BrainstormResponse))
    (sessionId : String) (timeout minResponses : Nat)
    (maxResponses : Option Nat) : List BrainstormResponse :=
  let matching := stream.filter (fun p => p.2.sessionId == sessionId)
  let resolveTime :=
    collectResolveTimeMs (matching.map Prod.fst) timeout minResponses
      maxResponses
  (matching.filter (fun p => p.1 ≤ resolveTime)).map Prod.snd

/-- C7 counterexample: `collectResponses` — the collect with
`minResponses`, named by the claim — returns no incomplete marker. A
timed-out collection of 1 response with `minResponses = 3` resolves to
the same bare one-element array as a collection whose minimum of 1 was
met: no flag or missing count marks the partial result. -/
theorem collectResponses_no_incomplete_marker :
    collectResponsesValue
        [(500, ⟨"s1", "a", "x", 1, "brainstorm_response"⟩)]
        "s1" 60000 3 none
      = collectResponsesValue
        [(500, ⟨"s1", "a", "x", 1, "brainstorm_response"⟩)]
        "s1" 60000 1 none
    ∧ collectResponsesValue
        [(500, ⟨"s1", "a", "x", 1, "brainstorm_response"⟩)]
        "s1" 60000 3 none
      = [⟨"s1", "a", "x", 1, "brainstorm_response"⟩] := by decide

/-- C7 (amended). A timeout with fewer than the minimum responses raises
no error and returns exactly the accumulated partial set, never padded:
`collectResponses` resolves the bare array of matching responses (every
element genuinely arrived on the stream and carries the session id) with
no incomplete marker; the explicit `{complete: false, received,
expected, missing, results}` marker exists only in the rabbitmq-ops
`collectWithTimeout` variant, proved here on its timeout branch. -/
theorem collect_partial_result (α : Type) (arrived : List α)
    (taskCount : Nat) (h : arrived.length < taskCount) :
    (collectWithTimeout α arrived taskCount =
      CollectOutcome.incomplete arrived.length taskCount
        ((taskCount : Int) - (arrived.length : Int)) arrived)
    ∧ 0 < (taskCount : Int) - (arrived.length : Int)
    ∧ (∀ results : List α,
        collectWithTimeout α arrived taskCount =
          CollectOutcome.completed results → False)
    ∧ ∀ (stream : List (Nat × BrainstormResponse)) (sessionId : String)
        (timeout minR : Nat) (maxR : Option Nat),
        ∀ r ∈ collectResponsesValue stream sessionId timeout minR maxR,
          r ∈ stream.map Prod.snd ∧ r.sessionId = sessionId := by
  have hcond : ¬ (1 ≤ taskCount ∧ taskCount ≤ arrived.length) := by
    rintro ⟨-, hle⟩
    exact absurd h (not_lt.mpr hle)
  refine ⟨?_, ?_, ?_, ?_⟩
  · simp [collectWithTimeout, hcond]
  · have : (arrived.length : Int) < (taskCount : Int) := by
      exact_mod_cast h
    omega
  · intro results hres
    rw [collectWithTimeout, if_neg hcond] at hres
    exact CollectOutcome.noConfusion hres
  · intro stream sessionId timeout minR maxR r hr
    simp only [collectResponsesValue] at hr
    rcases List.mem_map.mp hr with ⟨p, hp, hpr⟩
    have hp1 : p ∈ stream.filter (fun q => q.2.sessionId == sessionId) :=
      List.mem_of_mem_filter hp
    constructor
    · rw [← hpr]
      exact List.mem_map_of_mem Prod.snd (List.mem_of_mem_filter hp1)
    · have hsid := List.of_mem_filter hp1
      rw [← hpr]
      simpa using hsid

/-- Witness for C7 (amended): 1 collaborator answered out of 3
expected. -/
theorem collect_partial_result_witness :
    collectWithTimeout String ["only-answer"] 3 =
      CollectOutcome.incomplete 1 3 2 ["only-answer"] :=
  (collect_partial_result String ["only-answer"] 3 (by decide)).1

/-- What a single delivery of a failing task ends in. -/
inductive DeliveryOutcome where
  | nackRequeue
  | rejectDead
  deriving DecidableEq

/-- The catch-branch of the task consumer for one failed delivery
(task-distribution skill): `if (task.retryCount > 0) { task.retryCount--;
nack(true) } else { reject() }`. Returns the outcome and, when requeued,
the task's decremented retry counter. -/
def handleFailedDelivery (retryCount : Nat) :
    DeliveryOutcome × Option Nat :=
  if 0 < retryCount then (DeliveryOutcome.nackRequeue, some (retryCount - 1))
  else (DeliveryOutcome.rejectDead, none)

/-- `nack(true)` requeues the broker's original message: the in-process
`task.retryCount--` mutates only the consumer's parsed copy of the
message and is lost on requeue, so the requeued message still carries
the original `retryCount`. A rejected message leaves the queue for the
dead-letter exchange. -/
def brokerAfterDelivery (retryCount : Nat) : Option Nat :=
  match handleFailedDelivery retryCount with
  | (DeliveryOutcome.nackRequeue, _) => some retryCount
  | (DeliveryOutcome.rejectDead, _) => none

/-- The `retryCount` carried by the queued message before its `n+1`-th
delivery to an always-throwing handler; `none` once dead-lettered. -/
def queuedRetryCount (retryCount : Nat) : Nat → Option Nat
  | 0 => some retryCount
  | n + 1 =>
    match queuedRetryCount retryCount n with
    | none => none
    | some c => brokerAfterDelivery c

/-- Outcome of the `n+1`-th delivery of an always-failing task; `none` if
that delivery never happens. -/
def deliveryOutcome (retryCount n : Nat) : Option DeliveryOutcome :=
  match queuedRetryCount retryCount n with
  | none => none
  | some c => some (handleFailedDelivery c).1

theorem queuedRetryCount_const (rc : Nat) (h : 0 < rc) :
    ∀ n, queuedRetryCount rc n = some rc := by
  intro n
  induction n with
  | zero => rfl
  | succ m ih =>
    rw [queuedRetryCount, ih]
    simp [brokerAfterDelivery, handleFailedDelivery, h]

/-- C6 evidence. A task published with `retryCount = 2` (a total attempt
budget of three) whose handler throws on every delivery: the catch
branch nacks with requeue, but the decrement is lost because the broker
requeues the original message, so every delivery — including the fourth,
which the claim forbids — arrives with `retryCount = 2` and is nacked
again; `reject()` and the dead-letter queue are never reached. -/
theorem retry_unbounded_no_dead_letter :
    handleFailedDelivery 2 = (DeliveryOutcome.nackRequeue, some 1)
    ∧ brokerAfterDelivery 2 = some 2
    ∧ deliveryOutcome 2 3 = some DeliveryOutcome.nackRequeue
    ∧ (∀ n, deliveryOutcome 2 n = some DeliveryOutcome.nackRequeue)
    ∧ ∀ n, deliveryOutcome 2 n ≠ some DeliveryOutcome.rejectDead := by
  have hall : ∀ n,
      deliveryOutcome 2 n = some DeliveryOutcome.nackRequeue := by
    intro n
    unfold deliveryOutcome
    rw [queuedRetryCount_const 2 (by decide) n]
    rfl
  refine ⟨rfl, rfl, hall 3, hall, ?_⟩
  intro n h
  rw [hall n] at h
  exact DeliveryOutcome.noConfusion (Option.some.inj h)

/-- Modelled from the spec: a task as it sits in the broker's priority
work queue. The queue is declared with `x-max-priority` and each publish
carries a `priority` option; the delivery policy itself ("higher priority
is delivered first, ties broken by arrival order") is implemented by the
RabbitMQ broker, whose code is not part of this repository. `arrival` is
the enqueue position. -/
structure QTask where
  id : String
  priority : Nat
  arrival : Nat
  deriving DecidableEq

/-- Modelled from the spec: the broker's choice of the next task to
deliver — the first task (in arrival order) among those of maximal
priority — together with the remaining queue. -/
def pickNext : List QTask → Option (QTask × List QTask)
  | [] => none
  | t :: ts =>
    match pickNext ts with
    | none => some (t, [])
    | some (b, rest) =>
      if t.priority < b.priority then some (b, t :: rest) else some (t, ts)

/-- Modelled from the spec: the delivery sequence seen by a single
prefetch-1 consumer that drains the queue, with enough fuel to exhaust
it. -/
def drainAux : Nat → List QTask → List QTask
  | 0, _ => []
  | fuel + 1, q =>
    match pickNext q with
    | none => []
    | some (t, rest) => t :: drainAux fuel rest

/-- Modelled from the spec: the complete delivery order of a queue. -/
def drain (q : List QTask) : List QTask :=
  drainAux q.length q

theorem pickNext_eq_none {q : List QTask} (h : pickNext q = none) :
    q = [] := by
  cases q with
  | nil => rfl
  | cons t ts =>
    rw [pickNext] at h
    rcases h2 : pickNext ts with - | ⟨b, rest⟩ <;> rw [h2] at h
    · exact absurd h (by simp)
    · by_cases hlt : t.priority < b.priority <;> simp [hlt] at h

theorem pickNext_sublist :
    ∀ {q : List QTask} {t rest}, pickNext q = some (t, rest) →
      List.Sublist rest q := by
  intro q
  induction q with
  | nil => intro t rest h; exact absurd h (by simp [pickNext])
  | cons a ts ih =>
    intro t rest h
    rw [pickNext] at h
    rcases h2 : pickNext ts with - | ⟨b, r⟩ <;> rw [h2] at h
    · simp only [Option.some.injEq, Prod.mk.injEq] at h
      rw [← h.2]
      exact List.nil_sublist (a :: ts)
    · by_cases hlt : a.priority < b.priority <;>
        simp only [hlt, if_true, if_false, Option.some.injEq,
          Prod.mk.injEq] at h
      · rw [← h.2]
        exact List.Sublist.cons₂ a (ih h2)
      · rw [← h.2]
        exact List.sublist_cons_self a ts

theorem pickNext_length :
    ∀ {q : List QTask} {t rest}, pickNext q = some (t, rest) →
      rest.length + 1 = q.length := by
  intro q
  induction q with
  | nil => intro t rest h; exact absurd h (by simp [pickNext])
  | cons a ts ih =>
    intro t rest h
    rw [pickNext] at h
    rcases h2 : pickNext ts with - | ⟨b, r⟩ <;> rw [h2] at h
    · have hts : ts = [] := pickNext_eq_none h2
      simp only [Option.some.injEq, Prod.mk.injEq] at h
      rw [← h.2, hts]
      rfl
    · by_cases hlt : a.priority < b.priority <;>
        simp only [hlt, if_true, if_false, Option.some.injEq,
          Prod.mk.injEq] at h
      · rw [← h.2]
        have := ih h2
        simp only [List.length_cons] at this ⊢
        omega
      · rw [← h.2]
        rfl

theorem pickNext_priority_max :
    ∀ {q : List QTask} {t rest}, pickNext q = some (t, rest) →
      ∀ x ∈ q, x.priority ≤ t.priority := by
  intro q
  induction q with
  | nil => intro t rest h; exact absurd h (by simp [pickNext])
  | cons a ts ih =>
    intro t rest h x hx
    rw [pickNext] at h
    rcases h2 : pickNext ts with - | ⟨b, r⟩ <;> rw [h2] at h
    · have hts : ts = [] := pickNext_eq_none h2
      simp only [Option.some.injEq, Prod.mk.injEq] at h
      subst hts
      rcases List.mem_singleton.mp hx with hxa
      rw [hxa, ← h.1]
    · by_cases hlt : a.priority < b.priority <;>
        simp only [hlt, if_true, if_false, Option.some.injEq,
          Prod.mk.injEq] at h
      · rw [← h.1]
        rcases List.mem_cons.mp hx with hxa | hxts
        · rw [hxa]
          exact Nat.le_of_lt hlt
        · exact ih h2 x hxts
      · rw [← h.1]
        rcases List.mem_cons.mp hx with hxa | hxts
        · rw [hxa]
        · exact Nat.le_trans (ih h2 x hxts) (Nat.le_of_not_lt hlt)

theorem pickNext_fifo :
    ∀ {q : List QTask} {t rest},
      q.Pairwise (fun a b => a.arrival < b.arrival) →
      pickNext q = some (t, rest) →
      ∀ x ∈ rest, x.priority = t.priority → t.arrival < x.arrival := by
  intro q
  induction q with
  | nil => intro t rest _ h; exact absurd h (by simp [pickNext])
  | cons a ts ih =>
    intro t rest harr h x hx hpx
    have hhead : ∀ y ∈ ts, a.arrival < y.arrival :=
      (List.pairwise_cons.mp harr).1
    have htail : ts.Pairwise (fun u v => u.arrival < v.arrival) :=
      (List.pairwise_cons.mp harr).2
    rw [pickNext] at h
    rcases h2 : pickNext ts with - | ⟨b, r⟩ <;> rw [h2] at h
    · simp only [Option.some.injEq, Prod.mk.injEq] at h
      rw [← h.2] at hx
      exact absurd hx (List.not_mem_nil x)
    · by_cases hlt : a.priority < b.priority <;>
        simp only [hlt, if_true, if_false, Option.some.injEq,
          Prod.mk.injEq] at h
      · rw [← h.2] at hx
        rw [← h.1] at hpx ⊢
        rcases List.mem_cons.mp hx with hxa | hxr
        · rw [hxa] at hpx
          exact absurd hpx (Nat.ne_of_lt hlt)
        · exact ih htail h2 x hxr hpx
      · rw [← h.2] at hx
        rw [← h.1]
        exact hhead x hx

theorem pickNext_mem :
    ∀ {q : List QTask} {t rest}, pickNext q = some (t, rest) → t ∈ q := by
  intro q
  induction q with
  | nil => intro t rest h; exact absurd h (by simp [pickNext])
  | cons a ts ih =>
    intro t rest h
    rw [pickNext] at h
    rcases h2 : pickNext ts with - | ⟨b, r⟩ <;> rw [h2] at h
    · simp only [Option.some.injEq, Prod.mk.injEq] at h
      rw [← h.1]
      exact List.mem_cons_self a ts
    · by_cases hlt : a.priority < b.priority <;>
        simp only [hlt, if_true, if_false, Option.some.injEq,
          Prod.mk.injEq] at h
      · rw [← h.1]
        exact List.mem_cons_of_mem a (ih h2)
      · rw [← h.1]
        exact List.mem_cons_self a ts

theorem drainAux_mem :
    ∀ (fuel : Nat) (q : List QTask) (x : QTask),
      x ∈ drainAux fuel q → x ∈ q := by
  intro fuel
  induction fuel with
  | zero => intro q x hx; exact absurd hx (List.not_mem_nil x)
  | succ n ih =>
    intro q x hx
    rw [drainAux] at hx
    rcases h : pickNext q with - | ⟨t, rest⟩ <;> rw [h] at hx
    · exact absurd hx (List.not_mem_nil x)
    · rcases List.mem_cons.mp hx with hxt | hxr
      · rw [hxt]
        exact pickNext_mem h
      · exact (pickNext_sublist h).subset (ih rest x hxr)

theorem pickNext_perm :
    ∀ {q : List QTask} {t rest}, pickNext q = some (t, rest) →
      q.Perm (t :: rest) := by
  intro q
  induction q with
  | nil => intro t rest h; exact absurd h (by simp [pickNext])
  | cons a ts ih =>
    intro t rest h
    rw [pickNext] at h
    rcases h2 : pickNext ts with - | ⟨b, r⟩ <;> rw [h2] at h
    · have hts : ts = [] := pickNext_eq_none h2
      simp only [Option.some.injEq, Prod.mk.injEq] at h
      rw [← h.1, ← h.2, hts]
    · by_cases hlt : a.priority < b.priority <;>
        simp only [hlt, if_true, if_false, Option.some.injEq,
          Prod.mk.injEq] at h
      · rw [← h.1, ← h.2]
        exact ((ih h2).cons a).trans (List.Perm.swap b a r)
      · rw [← h.1, ← h.2]

theorem drainAux_perm :
    ∀ (fuel : Nat) (q : List QTask), q.length ≤ fuel →
      (drainAux fuel q).Perm q := by
  intro fuel
  induction fuel with
  | zero =>
    intro q hq
    have hnil : q = [] := List.eq_nil_of_length_eq_zero (Nat.le_zero.mp hq)
    rw [hnil]
    exact List.Perm.refl _
  | succ n ih =>
    intro q hq
    rw [drainAux]
    rcases h : pickNext q with - | ⟨t, rest⟩
    · rw [pickNext_eq_none h]
    · have hlen := pickNext_length h
      have hr : rest.length ≤ n := by omega
      exact ((ih rest hr).cons t).trans (pickNext_perm h).symm

theorem drainAux_pairwise :
    ∀ (fuel : Nat) (q : List QTask),
      q.Pairwise (fun a b => a.arrival < b.arrival) →
      (drainAux fuel q).Pairwise (fun a b =>
        b.priority < a.priority ∨
          (a.priority = b.priority ∧ a.arrival < b.arrival)) := by
  intro fuel
  induction fuel with
  | zero => intro q _; exact List.Pairwise.nil
  | succ n ih =>
    intro q harr
    rw [drainAux]
    rcases h : pickNext q with - | ⟨t, rest⟩
    · exact List.Pairwise.nil
    · rw [List.pairwise_cons]
      have hrest : rest.Pairwise (fun a b => a.arrival < b.arrival) :=
        harr.sublist (pickNext_sublist h)
      refine ⟨?_, ih rest hrest⟩
      intro x hx
      have hxrest : x ∈ rest := drainAux_mem n rest x hx
      have hxq : x ∈ q := (pickNext_sublist h).subset hxrest
      have hple : x.priority ≤ t.priority := pickNext_priority_max h x hxq
      rcases Nat.lt_or_ge x.priority t.priority with hlt | hge
      · exact Or.inl hlt
      · have heq : x.priority = t.priority := Nat.le_antisymm hple hge
        exact Or.inr ⟨heq.symm, pickNext_fifo harr h x hxrest heq⟩

/-- C9. In the priority work queue, every delivered task has either a
strictly higher priority than each task delivered after it, or the same
priority and an earlier arrival (FIFO among ties); the delivery sequence
is a permutation of the queue (no task lost or duplicated); and the
concrete scenario [low, high, low] is delivered as [high, low, low]. The
hypothesis says the queue list is in arrival order. -/
theorem priority_delivery_order (q : List QTask)
    (harr : q.Pairwise (fun a b => a.arrival < b.arrival)) :
    (drain q).Perm q
    ∧ (drain q).Pairwise (fun a b =>
        b.priority < a.priority ∨
          (a.priority = b.priority ∧ a.arrival < b.arrival))
    ∧ (drain [⟨"low1", 1, 0⟩, ⟨"high", 5, 1⟩, ⟨"low2", 1, 2⟩]).map
        QTask.id = ["high", "low1", "low2"] := by
  exact ⟨drainAux_perm q.length q (Nat.le_refl _),
    drainAux_pairwise q.length q harr, by decide⟩

/-- Witness for C9: the [low, high, low] scenario, whose queue list is in
arrival order. -/
theorem priority_delivery_order_witness :
    (drain [⟨"low1", 1, 0⟩, ⟨"high", 5, 1⟩, ⟨"low2", 1, 2⟩]).map
      QTask.id = ["high", "low1", "low2"] :=
  (priority_delivery_order
    [⟨"low1", 1, 0⟩, ⟨"high", 5, 1⟩, ⟨"low2", 1, 2⟩] (by decide)).2.2
